import Mathlib

/-!
# Verification of the cargo-orm field and expression core

A shallow embedding, in Lean 4, of the parts of the `cargo-orm` repository
(and its older `bloom-orm` layout, both vendored in the source tree) that the
specification's testable properties talk about:

* `cargo/fields/sequence.py` — the `Array` field's recursive `_cast`
  depth-bounded normalizer, `_select_cast`, and the mutating operations
  `append`/`insert`/`extend`; the `OneOf`/`Enum` field's membership-guarded
  `__call__` and its OID registration logic;
* `bloom/fields/sequence.py` — the older `Array._cast`, compared against the
  newer one;
* `cargo/fields/networking.py` and `cargo/fields/bit.py` — `__call__`
  normalizers and their treatment of `None` (SQL NULL);
* `cargo/clients.py` — `BasePostgresClient.get_type_OID` result unpacking;
* `bloom/fields/binary.py` — the base64 binary codec and its fallback;
* the `Expression`/`Clause`/`Function`/`Case` AST and its
  string+parameter compiler (modelled from the spec, see below).

Python values that can nest inside an array are embedded as `PyVal`;
machine-level details irrelevant to the claims (psycopg2 adapters, the
`arraylist`/`list` subclass distinction, which only carries a type-name tag
attribute and compares element-wise like any list) are noted where elided.
-/

/-- A Python value as it appears inside an `Array` field: either a scalar
(numbers stand in for any scalar element type) or a nested Python `list`. -/
inductive PyVal where
  | scalar : Int → PyVal
  | list : List PyVal → PyVal

/-- Truthiness-guarded depth check from `cargo/fields/sequence.py`
`Array._cast`, line 239: `if self.dimensions and dimension > self.dimensions`.
`dimensions` is `None` or an integer; a falsy bound (`None` or `0`) disables
the check. -/
def cargoDepthBad : Option Nat → Nat → Bool
  | none, _ => false
  | some d, dimension => d != 0 && decide (d < dimension)

/-- Python `repr` of the `dimensions` attribute, as interpolated by
`'... max depth is set to {}'.format(..., repr(self.dimensions))`. -/
def pyReprOptNat : Option Nat → String
  | none => "None"
  | some d => toString d

/-- The `ValueError` message raised by `Array._cast`
(`cargo/fields/sequence.py` lines 240-241 and `bloom/fields/sequence.py`
lines 357-358): `'Invalid dimensions ({}): max depth is set to {}'`. -/
def invalidDimMsg (attempted : Nat) (configuredRepr : String) : String :=
  "Invalid dimensions (" ++ toString attempted ++ "): max depth is set to " ++
    configuredRepr

mutual

/-- Embeds `Array._cast` from `cargo/fields/sequence.py` lines 237-251:
check `dimension` against the configured `dimensions` (truthiness-guarded),
then normalize each element: non-list elements through the element field's
constructor `self.type(x)` (embedded as `elem`), list elements by recursing
at `dimension + 1`.  The source materializes the generator into `list(arr)`
(depth > 1) or `arraylist(arr)` (depth 1); both are Python lists element-wise,
so both embed as `List PyVal`. -/
def cargoCast (dims : Option Nat) (elem : Int → Int) (value : List PyVal)
    (dimension : Nat) : Except String (List PyVal) :=
  if cargoDepthBad dims dimension then
    .error (invalidDimMsg dimension (pyReprOptNat dims))
  else
    cargoCastElems dims elem value (dimension + 1)
termination_by (sizeOf value, 1)

/-- The element walk of `cargoCast`: the generator
`(self.type(x) if not isinstance(x, list) else self._cast(x, next_dimension)
for x in value)`, evaluated left to right with the first error propagating. -/
def cargoCastElems (dims : Option Nat) (elem : Int → Int) :
    List PyVal → Nat → Except String (List PyVal)
  | [], _ => .ok []
  | PyVal.scalar a :: rest, nd =>
      (cargoCastElems dims elem rest nd).map (PyVal.scalar (elem a) :: ·)
  | PyVal.list l :: rest, nd => do
      let r ← cargoCast dims elem l nd
      let rs ← cargoCastElems dims elem rest nd
      .ok (PyVal.list r :: rs)
termination_by value _ => (sizeOf value, 0)

end

mutual

/-- Nesting depth of a Python value: scalars have depth 0, a list is one
deeper than its deepest element (an empty list has depth 1). -/
def pyDepth : PyVal → Nat
  | .scalar _ => 0
  | .list l => 1 + maxElemDepth l

/-- Maximum `pyDepth` over the elements of a list (0 for the empty list). -/
def maxElemDepth : List PyVal → Nat
  | [] => 0
  | x :: rest => max (pyDepth x) (maxElemDepth rest)

end

/-- The value slot of a field: the `Field.empty` unset sentinel, Python
`None` (SQL NULL), or an actual value. -/
inductive FieldVal (α : Type) where
  | empty : FieldVal α
  | null : FieldVal α
  | val : α → FieldVal α
  deriving Repr, DecidableEq

/-- Embeds `Array.__call__` (`cargo/fields/sequence.py` lines 175-178) for a
non-`empty` argument: `self.value = self._cast(value) if value is not None
else None`.  The `none` input is Python `None`. -/
def arrayCall (dims : Option Nat) (elem : Int → Int)
    (value : Option (List PyVal)) : Except String (FieldVal (List PyVal)) :=
  match value with
  | none => .ok .null
  | some v => (cargoCast dims elem v 1).map .val

/-- Embeds `Array._select_cast` (`cargo/fields/sequence.py` lines 253-256):
a non-list value goes through the element field's constructor `self.type`,
a list goes through `self._cast(value, dimension=dimension)`. -/
def cargoSelectCast (dims : Option Nat) (elem : Int → Int) (value : PyVal)
    (dimension : Nat) : Except String PyVal :=
  match value with
  | .scalar a => .ok (.scalar (elem a))
  | .list l => (cargoCast dims elem l dimension).map .list

/-- The value `Array.append` / `Array.insert` push into the backing list
(`cargo/fields/sequence.py` lines 258-261 and 267-270):
`self._select_cast(value, dimension=2)`. -/
def cargoAppendCast (dims : Option Nat) (elem : Int → Int) (value : PyVal) :
    Except String PyVal :=
  cargoSelectCast dims elem value 2

/-- The value `Array.extend` extends the backing list with
(`cargo/fields/sequence.py` lines 280-283): `self._select_cast(value)`, i.e.
`_select_cast` at its default `dimension=1`. -/
def cargoExtendCast (dims : Option Nat) (elem : Int → Int) (value : PyVal) :
    Except String PyVal :=
  cargoSelectCast dims elem value 1

mutual

/-- Embeds the older `Array._cast` from `bloom/fields/sequence.py` lines
354-363.  Differences from `cargoCast`: the depth guard is
`if dimension > self.dimensions` with no truthiness guard (in bloom,
`dimensions` is an integer, default 1), and every level materializes an
`arraylist` (a `list` subclass carrying a type-tag attribute; element-wise
it is the same list, so it embeds as `List PyVal`). -/
def bloomCast (d : Nat) (elem : Int → Int) (value : List PyVal)
    (dimension : Nat) : Except String (List PyVal) :=
  if decide (d < dimension) then
    .error (invalidDimMsg dimension (toString d))
  else
    bloomCastElems d elem value (dimension + 1)
termination_by (sizeOf value, 1)

/-- The element walk of `bloomCast`, the generator inside
`arraylist(self.type(x) if not isinstance(x, list) else
self._cast(x, next_dimension) for x in value)`. -/
def bloomCastElems (d : Nat) (elem : Int → Int) :
    List PyVal → Nat → Except String (List PyVal)
  | [], _ => .ok []
  | PyVal.scalar a :: rest, nd =>
      (bloomCastElems d elem rest nd).map (PyVal.scalar (elem a) :: ·)
  | PyVal.list l :: rest, nd => do
      let r ← bloomCast d elem l nd
      let rs ← bloomCastElems d elem rest nd
      .ok (PyVal.list r :: rs)
termination_by value _ => (sizeOf value, 0)

end

/-- Python `str` of a tuple of strings, as interpolated into the `OneOf`
error message `"`{}` not in {}".format(value, self.types)`: `str` of a tuple
uses `repr` of the elements, with a trailing comma for a 1-tuple. -/
def pyStrTupleOfStrings : List String → String
  | [] => "()"
  | [a] => "('" ++ a ++ "',)"
  | ts =>
      "(" ++ String.intercalate ", " (ts.map (fun t => "'" ++ t ++ "'")) ++ ")"

/-- Embeds `OneOf.__call__` (`cargo/fields/sequence.py` lines 72-78, same
body as `bloom/fields/sequence.py` lines 211-217) for a non-`empty`
argument: `None` or a member of `self.types` (Python `in`, i.e. equality) is
stored; anything else raises `ValueError("`{}` not in {}".format(...))`.
Enumerated values are modelled as strings. -/
def oneOfCall (types : List String) (value : Option String) :
    Except String (FieldVal String) :=
  match value with
  | none => .ok .null
  | some v =>
      if v ∈ types then .ok (.val v)
      else .error ("`" ++ v ++ "` not in " ++ pyStrTupleOfStrings types)

/-- The cached type-OID pair of a `OneOf` field
(`self._type_oid`, `self._type_array_oid`), both initialized to `None`. -/
structure OneOfOids where
  typeOid : Option Nat
  typeArrayOid : Option Nat
  deriving Repr, DecidableEq

/-- Embeds `OneOf._register_oid` (`cargo/fields/sequence.py` lines 80-83):
only when both cached OIDs are `None` does it call `db.get_type_OID`
(`cargo/clients.py` lines 46-57, which returns a tuple of the OIDs the
catalog query found — possibly fewer or more than two) and unpack the result
into the two slots.  `dbOids` is the tuple the database returns; the `Bool`
reports whether the database was queried; `.error` is the `ValueError`
Python raises when unpacking a tuple whose length is not 2 (no slot is
assigned in that case). -/
def registerOid (dbOids : List Nat) (s : OneOfOids) :
    Except Unit (OneOfOids × Bool) :=
  if s.typeOid = none ∧ s.typeArrayOid = none then
    match dbOids with
    | [a, b] => .ok (⟨some a, some b⟩, true)
    | _ => .error ()
  else
    .ok (s, false)

/-- Embeds `OneOf.register_type` (`cargo/fields/sequence.py` lines 85-96):
`_register_oid` plus the psycopg2 `reg_type`/`reg_array_type` side effects
(external, not modelled), with `except ValueError` emitting
`warnings.warn('Type `%s` not found in the database.' % self.type_name)` and
returning normally.  Result: the new cached state, whether the database was
queried, and the warning if one was emitted. -/
def registerType (typeName : String) (dbOids : List Nat) (s : OneOfOids) :
    OneOfOids × Bool × Option String :=
  match registerOid dbOids s with
  | .ok (s', queried) => (s', queried, none)
  | .error _ =>
      (s, true,
       some ("Type `" ++ typeName ++ "` not found in the database."))

/-- Embeds the common shape of the strict `__call__` normalizers that guard
on `None` before constructing the typed value:
`Bit.__call__` (`cargo/fields/bit.py` lines 40-45, `BitArray(value)`),
`Cidr.__call__` (`cargo/fields/networking.py` lines 136-141,
`IPNetwork(value)`) and `MacAddress.__call__` (lines 182-187, `EUI(value)`):
`if value is not None: value = Ctor(value); self.value = value`.
The constructor (which may raise on malformed input) is the parameter
`norm`; passing `None` stores `None` without invoking it. -/
def strictFieldCall {α β : Type} (norm : α → Except String β)
    (value : Option α) : Except String (FieldVal β) :=
  match value with
  | none => .ok .null
  | some v => (norm v).map .val

/-- A request object as probed by `IP.request_ip`
(`cargo/fields/networking.py` lines 61-73): a Flask/Bottle-like object with
a `remote_addr` attribute, a Django-like object with a `META` mapping
(holding optional `HTTP_X_FORWARDED_FOR` and `REMOTE_ADDR` entries), or
anything else. -/
inductive PyRequest where
  | flaskStyle (remoteAddr : Option String)
  | djangoStyle (xForwardedFor : Option String) (remoteAddr : Option String)
  | plain
  deriving Repr, DecidableEq

/-- Embeds `IP.request_ip` (`cargo/fields/networking.py` lines 61-73):
`None` request gives `None`; `remote_addr` wins when present; otherwise a
truthy `HTTP_X_FORWARDED_FOR` yields its last comma-separated entry,
stripped, else `REMOTE_ADDR`. -/
def requestIp : Option PyRequest → Option String
  | none => none
  | some (.flaskStyle ra) => ra
  | some (.djangoStyle xff ra) =>
      match xff with
      | some s =>
          if s = "" then ra
          else some ((s.splitOn ",").getLastD "" |>.trim)
      | none => ra
  | some .plain => none

/-- An argument to `IP.__call__`: Python `None`, the `IP.current` sentinel
(the integer `-1`, compared by `value == self.current`), or an address
value. -/
inductive IPInput where
  | null
  | sentinel
  | addr (s : String)
  deriving Repr, DecidableEq

/-- Embeds `IP.__call__` (`cargo/fields/networking.py` lines 49-56): the
sentinel is first replaced by `self.request_ip`; then a non-`None` value
goes through `IPAddress` (the parameter `ipParse`, which raises on values
that are not network addresses) and the result is stored. -/
def ipCall (req : Option PyRequest) (ipParse : String → Except String String)
    (value : IPInput) : Except String (FieldVal String) :=
  let substituted : Option String :=
    match value with
    | .sentinel => requestIp req
    | .null => none
    | .addr s => some s
  match substituted with
  | none => .ok .null
  | some s => (ipParse s).map .val

/-- The base64 alphabet: sextet index (0-63) to ASCII byte, per RFC 4648
as used by Python `base64.b64encode`. -/
def b64chr (i : Nat) : Nat :=
  if i < 26 then 65 + i
  else if i < 52 then 97 + (i - 26)
  else if i < 62 then 48 + (i - 52)
  else if i = 62 then 43
  else 47

/-- Inverse of the base64 alphabet: ASCII byte to sextet value, `none` for a
byte outside the alphabet (`'='`, byte 61, is not in the alphabet). -/
def b64val (c : Nat) : Option Nat :=
  if 65 ≤ c ∧ c ≤ 90 then some (c - 65)
  else if 97 ≤ c ∧ c ≤ 122 then some (26 + (c - 97))
  else if 48 ≤ c ∧ c ≤ 57 then some (52 + (c - 48))
  else if c = 43 then some 62
  else if c = 47 then some 63
  else none

/-- Byte-level `base64.b64encode`: three input bytes become four alphabet
bytes; a 1- or 2-byte tail is padded with `'='` (byte 61). -/
def b64encode : List Nat → List Nat
  | [] => []
  | [a] => [b64chr (a / 4), b64chr (a % 4 * 16), 61, 61]
  | [a, b] =>
      [b64chr (a / 4), b64chr (a % 4 * 16 + b / 16), b64chr (b % 16 * 4), 61]
  | a :: b :: c :: rest =>
      b64chr (a / 4) :: b64chr (a % 4 * 16 + b / 16) ::
        b64chr (b % 16 * 4 + c / 64) :: b64chr (c % 64) :: b64encode rest

/-- Byte-level base64 decoding, `none` on input it cannot reverse (a length
that is not a multiple of four, a non-alphabet byte in a data position, or
padding before the end), where Python `base64.b64decode` raises
`binascii.Error`/`TypeError`.  (Python's decoder is laxer on some malformed
inputs — it discards non-alphabet bytes before decoding — but agrees with
this on every output of `b64encode`, which is all the round-trip law
needs.) -/
def b64decode : List Nat → Option (List Nat)
  | [] => some []
  | w :: x :: y :: z :: rest => do
      let a ← b64val w
      let b ← b64val x
      if z = 61 then
        if rest.isEmpty then
          if y = 61 then
            some [a * 4 + b / 16]
          else do
            let c ← b64val y
            some [a * 4 + b / 16, b % 16 * 16 + c / 4]
        else none
      else do
        let c ← b64val y
        let d ← b64val z
        let tail ← b64decode rest
        some ((a * 4 + b / 16) :: (b % 16 * 16 + c / 4) ::
          (c % 4 * 64 + d) :: tail)
  | _ => none

/-- Embeds `bloombytes.to_db` (`bloom/fields/binary.py` lines 141-144):
`psycopg2.Binary(b64encode(value))` — base64 first, then the driver's binary
escaping (the external collaborator `esc`). -/
def bloombytesToDb (esc : List Nat → List Nat) (v : List Nat) : List Nat :=
  esc (b64encode v)

/-- Embeds `Binary.to_python` (`bloom/fields/binary.py` lines 166-171):
`b64decode(psycopg2.BINARY(value, cur))` — the driver's binary unescaping
(the external collaborator `unesc`) followed by base64 decoding — with
`except (TypeError, binascii.Error)` falling back to the raw unescaped
value. -/
def binaryToPython (unesc : List Nat → List Nat) (wire : List Nat) :
    List Nat :=
  match b64decode (unesc wire) with
  | some decoded => decoded
  | none => unesc wire

/-- A positional bind parameter contributed by a compiled tree (integers and
strings cover the literals the claims exercise). -/
inductive SqlParam where
  | int : Int → SqlParam
  | str : String → SqlParam
  deriving Repr, DecidableEq

/-- One piece of a compiled SQL fragment: literal text, or one positional
placeholder marker (rendered `%s`). -/
inductive Frag where
  | str : String → Frag
  | ph : Frag
  deriving Repr, DecidableEq

/-- Modelled from the spec: the `Expression`/`Clause`/`Function`/`Case` AST
of `cargo.expressions` (spec §3 "Expression Node" and §4.4), whose source
module is not in the tree — only its unit tests and callers are.  Operands
are a closed variant as §9 prescribes: a bound field leaf (rendered
`table.column`, or bare `column` when no table is bound), a raw literal
(one placeholder + one parameter), a "safe" pre-escaped fragment (verbatim,
zero parameters), a binary `Expression` with optional grouping and alias, a
`Function` with argument list and alias, a `Clause` of keyword plus ordered
children, and a `Case` of (condition, result) pairs with optional else
branch and alias. -/
inductive SqlNode where
  | field (table : Option String) (column : String)
  | lit (p : SqlParam)
  | safe (raw : String)
  | expr (l : SqlNode) (op : String) (r : SqlNode) (group : Bool)
      (aliasName : Option String)
  | func (name : String) (args : List SqlNode) (aliasName : Option String)
  | clause (keyword : String) (children : List SqlNode)
  | caseNode (whens : List (SqlNode × SqlNode)) (el : Option SqlNode)
      (aliasName : Option String)

mutual

/-- Modelled from the spec (§4.4 compilation algorithm, steps 1-6): the
recursive post-order compiler producing a fragment list and the ordered
parameter list, parameters concatenating left to right.  Aliases are
stripped in nested contexts (§4.4 step 7), so this inner compile ignores
them; `compileTop` appends the root's alias. -/
def compileNode : SqlNode → List Frag × List SqlParam
  | .field none c => ([Frag.str c], [])
  | .field (some t) c => ([Frag.str (t ++ "." ++ c)], [])
  | .lit p => ([Frag.ph], [p])
  | .safe raw => ([Frag.str raw], [])
  | .expr l op r group _ =>
      let L := compileNode l
      let R := compileNode r
      let body := L.1 ++ [Frag.str (" " ++ op ++ " ")] ++ R.1
      (if group then [Frag.str "("] ++ body ++ [Frag.str ")"] else body,
       L.2 ++ R.2)
  | .func name args _ =>
      let A := compileArgs args
      ([Frag.str (name ++ "(")] ++ A.1 ++ [Frag.str ")"], A.2)
  | .clause keyword children =>
      let C := compileChildren children
      ([Frag.str keyword] ++ C.1, C.2)
  | .caseNode whens el _ =>
      let W := compileWhens whens
      let E := match el with
        | none => (([] : List Frag), ([] : List SqlParam))
        | some e =>
            let X := compileNode e
            ([Frag.str " ELSE "] ++ X.1, X.2)
      ([Frag.str "CASE"] ++ W.1 ++ E.1 ++ [Frag.str " END"], W.2 ++ E.2)
termination_by n => (sizeOf n, 0)

/-- Function arguments, joined by `", "`; a zero-argument function renders
`name()` (spec §4.4 step 4). -/
def compileArgs : List SqlNode → List Frag × List SqlParam
  | [] => ([], [])
  | [n] => compileNode n
  | n :: rest =>
      let N := compileNode n
      let R := compileArgs rest
      (N.1 ++ [Frag.str ", "] ++ R.1, N.2 ++ R.2)
termination_by ns => (sizeOf ns, 1)

/-- Clause children, each preceded by a single space after the keyword
(spec §4.4 step 5: `keyword child1 child2 ...`). -/
def compileChildren : List SqlNode → List Frag × List SqlParam
  | [] => ([], [])
  | n :: rest =>
      let N := compileNode n
      let R := compileChildren rest
      ([Frag.str " "] ++ N.1 ++ R.1, N.2 ++ R.2)
termination_by ns => (sizeOf ns, 1)

/-- The `WHEN c THEN r` pairs of a `Case`, in call order (spec §4.4
step 6). -/
def compileWhens : List (SqlNode × SqlNode) → List Frag × List SqlParam
  | [] => ([], [])
  | (c, r) :: rest =>
      let C := compileNode c
      let R := compileNode r
      let T := compileWhens rest
      ([Frag.str " WHEN "] ++ C.1 ++ [Frag.str " THEN "] ++ R.1 ++ T.1,
       C.2 ++ R.2 ++ T.2)
termination_by ws => (sizeOf ws, 1)

end

/-- The alias carried by a node, if any. -/
def aliasOf : SqlNode → Option String
  | .expr _ _ _ _ a => a
  | .func _ _ a => a
  | .caseNode _ _ a => a
  | _ => none

/-- Modelled from the spec (§4.4 step 7): the root compile — the node's own
rendering with its alias, when present, appended as a trailing identifier. -/
def compileTop (n : SqlNode) : List Frag × List SqlParam :=
  let C := compileNode n
  match aliasOf n with
  | some a => (C.1 ++ [Frag.str (" " ++ a)], C.2)
  | none => C

/-- Number of positional placeholders in a fragment list. -/
def phCount : List Frag → Nat
  | [] => 0
  | Frag.ph :: rest => 1 + phCount rest
  | Frag.str _ :: rest => phCount rest

/-- The `.string` rendering of a compiled fragment list: placeholders render
as `%s`. -/
def sqlString : List Frag → String
  | [] => ""
  | Frag.ph :: rest => "%s" ++ sqlString rest
  | Frag.str s :: rest => s ++ sqlString rest

/-- Python `%`-interpolation of one parameter (`'%s' % p` uses `str`). -/
def paramStr : SqlParam → String
  | .int i => toString i
  | .str s => s

/-- The fully-inlined debug rendering `node.string % node.params` the unit
tests compare against: placeholders consume parameters left to right. -/
def inlineFrags : List Frag → List SqlParam → String
  | [], _ => ""
  | Frag.str s :: rest, ps => s ++ inlineFrags rest ps
  | Frag.ph :: rest, p :: ps => paramStr p ++ inlineFrags rest ps
  | Frag.ph :: rest, [] => inlineFrags rest []

/-- `node.string % node.params` for a whole tree. -/
def mogrify (n : SqlNode) : String :=
  inlineFrags (compileTop n).1 (compileTop n).2

/-- Modelled from the spec and `unit_tests/expressions/Case.py`: the mutable
state of the fluent `Case` builder — the accumulated (condition, result)
pairs, the optional else branch, and the optional alias. -/
structure CaseBuilder where
  whens : List (SqlNode × SqlNode)
  els : Option SqlNode
  aliasName : Option String

/-- `Case(cond1, res1, cond2, res2, ..., el=..., alias=...)`: the
constructor's alternating positional arguments as (condition, result)
pairs. -/
def caseOf (whens : List (SqlNode × SqlNode)) (el : Option SqlNode)
    (aliasName : Option String) : CaseBuilder :=
  ⟨whens, el, aliasName⟩

/-- `case.when(cond, result)` appends one pair, in call order. -/
def CaseBuilder.whenAdd (c : CaseBuilder) (cond result : SqlNode) :
    CaseBuilder :=
  { c with whens := c.whens ++ [(cond, result)] }

/-- `case.el(e)` sets the else branch; a later call overwrites an earlier
one (last-write-wins, never an error). -/
def CaseBuilder.elSet (c : CaseBuilder) (e : SqlNode) : CaseBuilder :=
  { c with els := some e }

/-- The AST node a finished builder compiles as. -/
def CaseBuilder.node (c : CaseBuilder) : SqlNode :=
  SqlNode.caseNode c.whens c.els c.aliasName

/-- Nesting depth of a whole assigned array value: the outer list counts as
depth 1, each nested list one more. -/
def listNestDepth (v : List PyVal) : Nat := 1 + maxElemDepth v

/-- The field of the `Case` unit-test scenario
(`unit_tests/expressions/Case.py` `test_el`): bound to table `foo`,
column `bar`. -/
def fooBar : SqlNode := .field (some "foo") "bar"

/-- `fielda == 1` / `fielda == 2`: comparison of the bound field against an
integer literal, yielding an ungrouped, unaliased `Expression`. -/
def fooBarEq (i : Int) : SqlNode :=
  .expr fooBar "=" (.lit (.int i)) false none

/-- `Case(fielda == 1, 'one', fielda == 2, 'two', el='three')` from
`unit_tests/expressions/Case.py` lines 21-22. -/
def caseLiteralNode : SqlNode :=
  SqlNode.caseNode
    [(fooBarEq 1, .lit (.str "one")), (fooBarEq 2, .lit (.str "two"))]
    (some (.lit (.str "three"))) none

/-- The same tree built incrementally (`unit_tests/expressions/Case.py`
lines 23-27): `Case()` then `when(fielda == 1, 'one')`,
`when(fielda == 2, 'two')`, `el('four')`, `el('three')`. -/
def caseBuiltNode : SqlNode :=
  (((((caseOf [] none none).whenAdd (fooBarEq 1) (.lit (.str "one"))).whenAdd
      (fooBarEq 2) (.lit (.str "two"))).elSet
      (.lit (.str "four"))).elSet (.lit (.str "three"))).node

theorem cargoCast_falsy (dims : Option Nat) (elem : Int → Int)
    (hfalsy : ∀ k, cargoDepthBad dims k = false) (v : List PyVal) (dim : Nat) :
    ∃ r, cargoCast dims elem v dim = .ok r := by
  refine cargoCast.induct dims elem
    (fun value dimension => ∃ r, cargoCast dims elem value dimension = .ok r)
    (fun value nd => ∃ r, cargoCastElems dims elem value nd = .ok r)
    ?_ ?_ ?_ ?_ ?_ v dim
  · intro value dimension hbad
    rw [hfalsy] at hbad
    exact absurd hbad (by simp)
  · intro value dimension _ ih
    obtain ⟨r, hr⟩ := ih
    exact ⟨r, by rw [cargoCast, if_neg (by simp [hfalsy]), hr]⟩
  · intro nd
    exact ⟨[], by simp [cargoCastElems]⟩
  · intro a rest nd ih
    obtain ⟨r, hr⟩ := ih
    exact ⟨_, by rw [cargoCastElems, hr]; rfl⟩
  · intro l rest nd ih1 ih2
    obtain ⟨r1, h1⟩ := ih1
    obtain ⟨r2, h2⟩ := ih2
    exact ⟨_, by rw [cargoCastElems, h1, h2]; rfl⟩

theorem cargoCast_characterize (d : Nat) (elem : Int → Int) (hd : 0 < d)
    (v : List PyVal) (dim : Nat) :
    1 ≤ dim → dim ≤ d + 1 →
      if maxElemDepth v + dim ≤ d
      then ∃ r, cargoCast (some d) elem v dim = .ok r
      else cargoCast (some d) elem v dim =
        .error (invalidDimMsg (d + 1) (toString d)) := by
  refine cargoCast.induct (some d) elem
    (fun value dimension => 1 ≤ dimension → dimension ≤ d + 1 →
      if maxElemDepth value + dimension ≤ d
      then ∃ r, cargoCast (some d) elem value dimension = .ok r
      else cargoCast (some d) elem value dimension =
        .error (invalidDimMsg (d + 1) (toString d)))
    (fun value nd => 2 ≤ nd → nd ≤ d + 1 →
      if maxElemDepth value + nd ≤ d + 1
      then ∃ r, cargoCastElems (some d) elem value nd = .ok r
      else cargoCastElems (some d) elem value nd =
        .error (invalidDimMsg (d + 1) (toString d)))
    ?_ ?_ ?_ ?_ ?_ v dim
  · -- depth check fired: dimension = d + 1
    intro value dimension hbad h1 h2
    simp only [cargoDepthBad, bne_iff_ne, ne_eq, Bool.and_eq_true,
      decide_eq_true_eq] at hbad
    have hdim : dimension = d + 1 := by omega
    rw [if_neg (by omega)]
    rw [cargoCast, if_pos]
    · simp [hdim, pyReprOptNat]
    · simp [cargoDepthBad]
      omega
  · -- depth check passed: dimension ≤ d
    intro value dimension hbad ih h1 h2
    have hle : dimension ≤ d := by
      simp only [cargoDepthBad, bne_iff_ne, ne_eq, Bool.and_eq_true,
        decide_eq_true_eq, not_and, not_lt] at hbad
      exact hbad (by omega)
    have hstep : cargoCast (some d) elem value dimension =
        cargoCastElems (some d) elem value (dimension + 1) := by
      rw [cargoCast, if_neg hbad]
    have := ih (by omega) (by omega)
    rw [hstep]
    by_cases hcond : maxElemDepth value + dimension ≤ d
    · rw [if_pos hcond]
      rw [if_pos (by omega)] at this
      exact this
    · rw [if_neg hcond]
      rw [if_neg (by omega)] at this
      exact this
  · -- empty list of elements
    intro nd h1 h2
    rw [if_pos (by simp [maxElemDepth]; omega)]
    exact ⟨[], by simp [cargoCastElems]⟩
  · -- scalar element
    intro a rest nd ih h1 h2
    have hmax : maxElemDepth (PyVal.scalar a :: rest) = maxElemDepth rest := by
      simp [maxElemDepth, pyDepth]
    have := ih h1 h2
    rw [hmax]
    by_cases hcond : maxElemDepth rest + nd ≤ d + 1
    · rw [if_pos hcond]
      rw [if_pos hcond] at this
      obtain ⟨r, hr⟩ := this
      exact ⟨_, by rw [cargoCastElems, hr]; rfl⟩
    · rw [if_neg hcond]
      rw [if_neg hcond] at this
      rw [cargoCastElems, this]
      rfl
  · -- nested list element
    intro l rest nd ih1 ih2 h1 h2
    have hmax : maxElemDepth (PyVal.list l :: rest) =
        max (1 + maxElemDepth l) (maxElemDepth rest) := by
      simp [maxElemDepth, pyDepth]
    have hhead := ih1 (by omega) h2
    have htail := ih2 h1 h2
    rw [hmax]
    by_cases hcond : max (1 + maxElemDepth l) (maxElemDepth rest) + nd ≤ d + 1
    · rw [if_pos hcond]
      rw [if_pos (by omega)] at hhead
      rw [if_pos (by omega)] at htail
      obtain ⟨r1, hr1⟩ := hhead
      obtain ⟨r2, hr2⟩ := htail
      exact ⟨_, by rw [cargoCastElems, hr1, hr2]; rfl⟩
    · rw [if_neg hcond]
      by_cases hhd : maxElemDepth l + nd ≤ d
      · -- the head is fine, the tail must fail
        rw [if_pos hhd] at hhead
        rw [if_neg (by omega)] at htail
        obtain ⟨r1, hr1⟩ := hhead
        rw [cargoCastElems, hr1, htail]
        rfl
      · -- the head fails first
        rw [if_neg hhd] at hhead
        rw [cargoCastElems, hhead]
        rfl

theorem cargoCast_eq_bloomCast (d : Nat) (elem : Int → Int) (hd : 0 < d)
    (v : List PyVal) (dim : Nat) :
    cargoCast (some d) elem v dim = bloomCast d elem v dim := by
  refine cargoCast.induct (some d) elem
    (fun value dimension =>
      cargoCast (some d) elem value dimension = bloomCast d elem value dimension)
    (fun value nd =>
      cargoCastElems (some d) elem value nd = bloomCastElems d elem value nd)
    ?_ ?_ ?_ ?_ ?_ v dim
  · intro value dimension hbad
    have hlt : d < dimension := by
      simp only [cargoDepthBad, bne_iff_ne, ne_eq, Bool.and_eq_true,
        decide_eq_true_eq] at hbad
      exact hbad.2
    rw [cargoCast, if_pos hbad, bloomCast, if_pos (by simpa using hlt)]
    rfl
  · intro value dimension hbad ih
    have hge : ¬ d < dimension := by
      simp only [cargoDepthBad, bne_iff_ne, ne_eq, Bool.and_eq_true,
        decide_eq_true_eq, not_and, not_lt] at hbad
      exact not_lt.mpr (hbad (by omega))
    rw [cargoCast, if_neg hbad, bloomCast, if_neg (by simpa using hge), ih]
  · intro nd
    rw [cargoCastElems, bloomCastElems]
  · intro a rest nd ih
    rw [cargoCastElems, bloomCastElems, ih]
  · intro l rest nd ih1 ih2
    rw [cargoCastElems, bloomCastElems, ih1, ih2]

/-- Claim C2: for every Array field, `_cast` walks an assigned whole value
starting at depth 1; a value nested deeper than the configured `dimensions`
makes the assignment raise a `ValueError` reporting the attempted depth
(`dimensions + 1`) and the configured maximum; a value whose nesting depth
is at most (in particular, exactly) `dimensions` is accepted; and a falsy
bound (`None` or `0`) disables the depth check so any depth is accepted.
Element normalization is modelled as total, as the claim concerns only the
depth behavior. -/
theorem array_cast_depth_enforcement (d : Nat) (elem : Int → Int)
    (v : List PyVal) (hd : 0 < d) :
    (arrayCall (some d) elem (some v) = (cargoCast (some d) elem v 1).map .val) ∧
    (listNestDepth v ≤ d → ∃ r, arrayCall (some d) elem (some v) = .ok (.val r)) ∧
    (d < listNestDepth v →
      arrayCall (some d) elem (some v) =
        .error (invalidDimMsg (d + 1) (toString d))) ∧
    (∀ w, ∃ r, arrayCall none elem (some w) = .ok (.val r)) ∧
    (∀ w, ∃ r, arrayCall (some 0) elem (some w) = .ok (.val r)) := by
  have hchar := cargoCast_characterize d elem hd v 1 (by omega) (by omega)
  refine ⟨rfl, ?_, ?_, ?_, ?_⟩
  · intro hdepth
    rw [if_pos (by simp only [listNestDepth] at hdepth; omega)] at hchar
    obtain ⟨r, hr⟩ := hchar
    exact ⟨r, by simp [arrayCall, hr, Except.map]⟩
  · intro hdepth
    rw [if_neg (by simp only [listNestDepth] at hdepth; omega)] at hchar
    simp [arrayCall, hchar, Except.map]
  · intro w
    obtain ⟨r, hr⟩ := cargoCast_falsy none elem (fun k => rfl) w 1
    exact ⟨r, by simp [arrayCall, hr, Except.map]⟩
  · intro w
    obtain ⟨r, hr⟩ := cargoCast_falsy (some 0) elem (fun k => rfl) w 1
    exact ⟨r, by simp [arrayCall, hr, Except.map]⟩

/-- Witness for claim C2: a value of nesting depth exactly 2 is accepted by
an Array field with `dimensions = 2`. -/
theorem array_cast_depth_enforcement_witness :
    ∃ r, arrayCall (some 2) (fun a => a)
      (some [PyVal.list [PyVal.scalar 5]]) = .ok (.val r) :=
  (array_cast_depth_enforcement 2 (fun a => a) [PyVal.list [PyVal.scalar 5]]
    (by decide)).2.1
    (by simp [listNestDepth, maxElemDepth, pyDepth])

/-- Claim C9: for the same element type and a positive integer `dimensions`
bound, the newer cargo `Array._cast` and the older bloom `Array._cast` are
equivalent on every input: the whole-assignment path agrees, and at every
`dimension` argument the two casts return identical results — erroring on
exactly the same inputs with the same message, and otherwise producing
element-wise equal nested list structures. -/
theorem cast_refinement_equivalence (d : Nat) (elem : Int → Int) (hd : 0 < d)
    (v : List PyVal) :
    arrayCall (some d) elem (some v) =
      (bloomCast d elem v 1).map .val ∧
    (∀ dim, cargoCast (some d) elem v dim = bloomCast d elem v dim) := by
  constructor
  · simp [arrayCall, cargoCast_eq_bloomCast d elem hd v 1, Except.map]
  · intro dim
    exact cargoCast_eq_bloomCast d elem hd v dim

/-- Witness for claim C9: the two implementations agree on a concrete
one-dimensional value with a non-trivial element normalizer. -/
theorem cast_refinement_equivalence_witness :
    arrayCall (some 1) (fun a => a + 1) (some [PyVal.scalar 3]) =
      (bloomCast 1 (fun a => a + 1) [PyVal.scalar 3] 1).map .val :=
  (cast_refinement_equivalence 1 (fun a => a + 1) (by decide) [PyVal.scalar 3]).1

theorem cargoCastElems_scalars (dims : Option Nat) (elem : Int → Int)
    (as : List Int) (nd : Nat) :
    cargoCastElems dims elem (as.map PyVal.scalar) nd =
      .ok (as.map (fun a => PyVal.scalar (elem a))) := by
  induction as with
  | nil => simp [cargoCastElems]
  | cons a rest ih => simp [cargoCastElems, ih]; rfl

/-- Counterexample to claim C3 as stated: on an Array with
`dimensions = 1`, inserting the list `[7]` via `extend` does NOT raise the
depth-exceeded `ValueError` — `extend` calls `_select_cast(value)` at its
default `dimension=1` (`cargo/fields/sequence.py` line 283), so the cast
succeeds and returns the normalized list. -/
theorem extend_depth_counterexample :
    cargoExtendCast (some 1) (fun a => a) (PyVal.list [PyVal.scalar 7]) =
      .ok (PyVal.list [PyVal.scalar 7]) := by
  simp [cargoExtendCast, cargoSelectCast, cargoCast, cargoCastElems,
    cargoDepthBad, Except.map]

/-- Claim C3, amended: `append` and `insert` normalize their inserted value
starting at depth 2 relative to the outer array — an inserted scalar goes
through the element field's constructor and an inserted list is treated as
a nested array whose depth check begins at dimension 2, so on an Array with
`dimensions = 1` inserting a list via `append` or `insert` raises the
depth-exceeded `ValueError`; `extend`, however, normalizes its argument at
the default depth 1 (treating it as a whole outer-array level), so on an
Array with `dimensions = 1` extending with a flat list of scalars succeeds,
each element normalized through the element field's constructor. -/
theorem mutator_cast_depths (dims : Option Nat) (elem : Int → Int) :
    (∀ a, cargoAppendCast dims elem (PyVal.scalar a) =
      .ok (PyVal.scalar (elem a))) ∧
    (∀ l, cargoAppendCast dims elem (PyVal.list l) =
      (cargoCast dims elem l 2).map PyVal.list) ∧
    (∀ l, cargoAppendCast (some 1) elem (PyVal.list l) =
      .error (invalidDimMsg 2 "1")) ∧
    (∀ a, cargoExtendCast dims elem (PyVal.scalar a) =
      .ok (PyVal.scalar (elem a))) ∧
    (∀ l, cargoExtendCast dims elem (PyVal.list l) =
      (cargoCast dims elem l 1).map PyVal.list) ∧
    (∀ as : List Int, cargoExtendCast (some 1) elem (.list (as.map .scalar)) =
      .ok (.list (as.map (fun a => PyVal.scalar (elem a))))) := by
  refine ⟨fun a => rfl, fun l => rfl, ?_, fun a => rfl, fun l => rfl, ?_⟩
  · intro l
    have : cargoCast (some 1) elem l 2 =
        .error (invalidDimMsg 2 (pyReprOptNat (some 1))) := by
      rw [cargoCast, if_pos (by simp [cargoDepthBad])]
    simp [cargoAppendCast, cargoSelectCast, this, Except.map, pyReprOptNat]
    rfl
  · intro as
    have : cargoCast (some 1) elem (as.map PyVal.scalar) 1 =
        .ok (as.map (fun a => PyVal.scalar (elem a))) := by
      rw [cargoCast, if_neg (by simp [cargoDepthBad]),
        cargoCastElems_scalars]
    simp [cargoExtendCast, cargoSelectCast, this, Except.map]

/-- Claim C4: for every OneOf/Enum field and every set value: `None`, or a
value equal to some member of the `types` tuple, is stored; any other value
raises a `ValueError` whose message names the attempted value and the full
allowed tuple. -/
theorem oneof_membership (types : List String) (v : String) :
    (oneOfCall types none = .ok .null) ∧
    (v ∈ types → oneOfCall types (some v) = .ok (.val v)) ∧
    (v ∉ types → oneOfCall types (some v) =
      .error ("`" ++ v ++ "` not in " ++ pyStrTupleOfStrings types)) := by
  refine ⟨rfl, ?_, ?_⟩
  · intro hmem
    simp [oneOfCall, hmem]
  · intro hmem
    simp [oneOfCall, hmem]

/-- Witness for claim C4: `OneOf('cat', 'dog', 'mouse')` set to
`'goat'` raises exactly ``"`goat` not in ('cat', 'dog', 'mouse')"``. -/
theorem oneof_membership_witness :
    oneOfCall ["cat", "dog", "mouse"] (some "goat") =
      .error "`goat` not in ('cat', 'dog', 'mouse')" := by
  have h := (oneof_membership ["cat", "dog", "mouse"] "goat").2.2 (by decide)
  rw [h]
  rfl

/-- Claim C5: for every typed field — Array, OneOf, the strict
constructor-guarded fields Bit/Cidr/MacAddress (`strictFieldCall`), and IP —
calling the field with `None` stores `None` (SQL NULL) directly, bypassing
the type-specific normalizer entirely (the statement holds for EVERY
normalizer function, so no normalizer is ever consulted) and never raising;
the stored `None` is distinct from the `empty` unset sentinel. -/
theorem none_bypasses_normalizers :
    (∀ (dims : Option Nat) (elem : Int → Int),
      arrayCall dims elem none = .ok .null) ∧
    (∀ types : List String, oneOfCall types none = .ok .null) ∧
    (∀ (α β : Type) (norm : α → Except String β),
      strictFieldCall norm none = .ok .null) ∧
    (∀ (req : Option PyRequest) (ipParse : String → Except String String),
      ipCall req ipParse IPInput.null = .ok .null) ∧
    (∀ α : Type, (FieldVal.null : FieldVal α) ≠ FieldVal.empty) := by
  refine ⟨fun _ _ => rfl, fun _ => rfl, fun _ _ _ => rfl, fun _ _ => rfl, ?_⟩
  intro α h
  exact FieldVal.noConfusion h

/-- Claim C10: an IP field constructed with `request=None`, called with the
`IP.current` sentinel (-1), substitutes the absent request IP (`None`),
stores SQL NULL and returns without raising — for every `IPAddress`
parser, i.e. even though `-1` is not a valid network address the parser is
never consulted. -/
theorem ip_current_without_request (ipParse : String → Except String String) :
    requestIp none = none ∧
    ipCall none ipParse IPInput.sentinel = .ok .null :=
  ⟨rfl, rfl⟩

/-- Claim C6: enum type registration is idempotent and non-fatal —
`_register_oid` queries the database only when both cached OIDs are `None`,
so once a `register_type` call succeeds, later calls perform no new
resolution and change nothing; and when the catalog query yields too few
rows to unpack, `register_type` emits a warning naming the type and returns
normally instead of raising. -/
theorem enum_registration_idempotent_nonfatal (typeName : String)
    (s : OneOfOids) (dbOids : List Nat) :
    (s.typeOid ≠ none ∨ s.typeArrayOid ≠ none →
      registerOid dbOids s = .ok (s, false)) ∧
    (∀ a b, registerType typeName dbOids ⟨some a, some b⟩ =
      (⟨some a, some b⟩, false, none)) ∧
    (∀ a b, registerType typeName [a, b] ⟨none, none⟩ =
      (⟨some a, some b⟩, true, none)) ∧
    (dbOids.length < 2 → registerType typeName dbOids ⟨none, none⟩ =
      (⟨none, none⟩, true,
       some ("Type `" ++ typeName ++ "` not found in the database."))) := by
  refine ⟨?_, fun a b => rfl, fun a b => rfl, ?_⟩
  · intro h
    have hcond : ¬(s.typeOid = none ∧ s.typeArrayOid = none) := by
      intro hboth
      rcases h with h | h
      · exact h hboth.1
      · exact h hboth.2
    simp [registerOid, hcond]
  · intro hlen
    match dbOids, hlen with
    | [], _ => rfl
    | [a], _ => rfl

/-- Witness for claim C6: a partially-cached state is returned untouched
without querying, and registration against an empty catalog result warns
with the type name. -/
theorem enum_registration_witness :
    registerOid [9, 9] ⟨some 3, none⟩ = .ok (⟨some 3, none⟩, false) ∧
    registerType "pets" [] ⟨none, none⟩ =
      (⟨none, none⟩, true,
       some "Type `pets` not found in the database.") := by
  constructor
  · exact (enum_registration_idempotent_nonfatal "pets" ⟨some 3, none⟩
      [9, 9]).1 (Or.inl (by simp))
  · have h := (enum_registration_idempotent_nonfatal "pets" ⟨none, none⟩
      []).2.2.2 (by decide)
    rw [h]
    rfl

theorem b64val_b64chr : ∀ i, i < 64 → b64val (b64chr i) = some i := by
  decide

theorem b64chr_ne_61 : ∀ i, i < 64 → b64chr i ≠ 61 := by
  decide

theorem b64decode_b64encode (v : List Nat) (hv : ∀ b ∈ v, b < 256) :
    b64decode (b64encode v) = some v := by
  induction v using b64encode.induct with
  | case1 => rfl
  | case2 a =>
    have ha : a < 256 := hv a (by simp)
    have h1 : b64val (b64chr (a / 4)) = some (a / 4) :=
      b64val_b64chr _ (by omega)
    have h2 : b64val (b64chr (a % 4 * 16)) = some (a % 4 * 16) :=
      b64val_b64chr _ (by omega)
    simp [b64encode, b64decode, h1, h2]
    omega
  | case3 a b =>
    have ha : a < 256 := hv a (by simp)
    have hb : b < 256 := hv b (by simp)
    have h1 : b64val (b64chr (a / 4)) = some (a / 4) :=
      b64val_b64chr _ (by omega)
    have h2 : b64val (b64chr (a % 4 * 16 + b / 16)) =
        some (a % 4 * 16 + b / 16) := b64val_b64chr _ (by omega)
    have h3 : b64val (b64chr (b % 16 * 4)) = some (b % 16 * 4) :=
      b64val_b64chr _ (by omega)
    have hy : b64chr (b % 16 * 4) ≠ 61 := b64chr_ne_61 _ (by omega)
    simp [b64encode, b64decode, h1, h2, h3, hy]
    omega
  | case4 a b c rest ih =>
    have ha : a < 256 := hv a (by simp)
    have hb : b < 256 := hv b (by simp)
    have hc : c < 256 := hv c (by simp)
    have h1 : b64val (b64chr (a / 4)) = some (a / 4) :=
      b64val_b64chr _ (by omega)
    have h2 : b64val (b64chr (a % 4 * 16 + b / 16)) =
        some (a % 4 * 16 + b / 16) := b64val_b64chr _ (by omega)
    have h3 : b64val (b64chr (b % 16 * 4 + c / 64)) =
        some (b % 16 * 4 + c / 64) := b64val_b64chr _ (by omega)
    have h4 : b64val (b64chr (c % 64)) = some (c % 64) :=
      b64val_b64chr _ (by omega)
    have hz : b64chr (c % 64) ≠ 61 := b64chr_ne_61 _ (by omega)
    have htail := ih (fun x hx => hv x (by simp [hx]))
    simp [b64encode, b64decode, h1, h2, h3, h4, hz, htail]
    omega

/-- Claim C7: the binary codec round-trips — encoding applies base64
before the driver's escaping (`to_db` wraps `b64encode(v)`), decoding
applies base64-decoding after unescaping so `decode(encode(v)) = v` for
every byte string; and when base64 reversal fails on a wire value, decoding
returns the raw escaped value instead of raising. -/
theorem binary_codec_roundtrip (esc unesc : List Nat → List Nat)
    (hinv : ∀ w, unesc (esc w) = w) (v : List Nat) (hv : ∀ b ∈ v, b < 256) :
    binaryToPython unesc (bloombytesToDb esc v) = v ∧
    (∀ wire, b64decode (unesc wire) = none →
      binaryToPython unesc wire = unesc wire) := by
  constructor
  · simp [binaryToPython, bloombytesToDb, hinv, b64decode_b64encode v hv]
  · intro wire hfail
    simp [binaryToPython, hfail]

/-- Witness for claim C7: a concrete byte string survives the round
trip. -/
theorem binary_codec_roundtrip_witness :
    binaryToPython id (bloombytesToDb id [0, 255, 7, 77]) = [0, 255, 7, 77] :=
  (binary_codec_roundtrip id id (fun _ => rfl) [0, 255, 7, 77] (by decide)).1

theorem phCount_append (a b : List Frag) :
    phCount (a ++ b) = phCount a + phCount b := by
  induction a with
  | nil => simp [phCount]
  | cons x rest ih =>
    cases x with
    | str s => simp [phCount, ih]
    | ph => simp [phCount, ih]; omega

theorem compileNode_aligned (n : SqlNode) :
    phCount (compileNode n).1 = (compileNode n).2.length := by
  refine compileNode.induct
    (fun m => phCount (compileNode m).1 = (compileNode m).2.length)
    (fun ws => phCount (compileWhens ws).1 = (compileWhens ws).2.length)
    (fun ns => phCount (compileChildren ns).1 = (compileChildren ns).2.length)
    (fun ns => phCount (compileArgs ns).1 = (compileArgs ns).2.length)
    ?_ ?_ ?_ ?_ ?_ ?_ ?_ ?_ ?_ ?_ ?_ ?_ ?_ ?_ ?_ n
  · intro c
    simp [compileNode, phCount]
  · intro t c
    simp [compileNode, phCount]
  · intro p
    simp [compileNode, phCount]
  · intro raw
    simp [compileNode, phCount]
  · intro l op r group aliasName ihl ihr
    cases group <;>
      simp [compileNode, phCount, phCount_append, ihl, ihr]
  · intro name args aliasName ih
    simp [compileNode, phCount, phCount_append, ih]
  · intro keyword children ih
    simp [compileNode, phCount, phCount_append, ih]
  · intro whens el aliasName ihw ihe
    cases el with
    | none => simp [compileNode, phCount, phCount_append, ihw]
    | some e =>
      simp only at ihe
      simp [compileNode, phCount, phCount_append, ihw, ihe]
  · simp [compileWhens, phCount]
  · intro c r rest ihc ihr ihrest
    simp [compileWhens, phCount, phCount_append, ihc, ihr, ihrest]
  · simp [compileChildren, phCount]
  · intro m rest ihn ihrest
    simp [compileChildren, phCount, phCount_append, ihn, ihrest]
  · simp [compileArgs, phCount]
  · intro m ih
    simp [compileArgs, ih]
  · intro m rest hne ihn ihrest
    rw [compileArgs.eq_def]
    match rest, hne with
    | r1 :: rs, _ =>
      simp [phCount, phCount_append, ihn, ihrest]

/-- Claim C1: for every Expression/Clause/Function/Case tree, the compiled
output keeps positional placeholders and bind parameters aligned — the
number of placeholders in the fragment list equals the number of
parameters, both for the nested-context compile of every subtree (the
statement quantifies over all nodes, hence holds at every level of the
tree) and for the root compile with alias rendering. -/
theorem placeholder_parameter_alignment (n : SqlNode) :
    phCount (compileNode n).1 = (compileNode n).2.length ∧
    phCount (compileTop n).1 = (compileTop n).2.length := by
  have h := compileNode_aligned n
  refine ⟨h, ?_⟩
  cases haliasOf : aliasOf n with
  | none => simpa [compileTop, haliasOf] using h
  | some a => simp [compileTop, haliasOf, phCount_append, phCount, h]

/-- Claim C8: `Case(field == 1, 'one', field == 2, 'two', el='three')`
with the field bound to table `foo`, column `bar`, compiles with parameters
inlined to exactly
`CASE WHEN foo.bar = 1 THEN one WHEN foo.bar = 2 THEN two ELSE three END`;
the same tree built incrementally by repeated `when()`/`el()` calls — with
the later `el('three')` overriding the earlier `el('four')`,
last-write-wins, never an error — is the identical tree and compiles to
byte-identical output. -/
theorem case_el_compilation :
    mogrify caseLiteralNode =
      "CASE WHEN foo.bar = 1 THEN one WHEN foo.bar = 2 THEN two" ++
        " ELSE three END" ∧
    caseBuiltNode = caseLiteralNode ∧
    mogrify caseBuiltNode = mogrify caseLiteralNode ∧
    (∀ (c : CaseBuilder) (e1 e2 : SqlNode),
      (c.elSet e1).elSet e2 = c.elSet e2) := by
  have hnode : caseBuiltNode = caseLiteralNode := rfl
  refine ⟨?_, hnode, by rw [hnode], fun c e1 e2 => rfl⟩
  simp [mogrify, compileTop, aliasOf, caseLiteralNode, fooBarEq, fooBar,
    compileNode, compileWhens, inlineFrags, paramStr]
  rfl

/-- Witness for claim C5: `None` assignment on a concrete Array field stores
SQL NULL, and the stored NULL differs from the unset sentinel. -/
theorem none_bypasses_normalizers_witness :
    arrayCall (some 1) (fun a => a) none = .ok .null ∧
    (FieldVal.null : FieldVal Nat) ≠ FieldVal.empty :=
  ⟨none_bypasses_normalizers.1 (some 1) (fun a => a),
   none_bypasses_normalizers.2.2.2.2 Nat⟩
